import Mathlib

/-!
Verification of the flo SNMP monitoring engine.

This development shallowly embeds the core of the flo repository:
the rate calculator (internal/engine/rate.go), the ring buffer
(internal/engine/ringbuffer.go), the poll cycle's per-interface update
(Poller.pollTarget), the session manager (internal/engine/manager.go),
the encrypted identity store (internal/identity), and the snapshot
construction (Poller.snapshotLocked).

Modelling conventions:
- Go `uint64` counters are modelled as `Nat` (the claims never exercise
  overflow: subtraction happens only after the no-wrap comparison).
- Go `time.Time` is modelled as an `Int` count of nanoseconds; `Sub`
  followed by `.Seconds()` becomes exact division in `ℚ`.
- `float64` rate arithmetic is idealised as exact `ℚ` arithmetic.
- Fallible Go functions return `Except`/`Option`.
-/

namespace Flo

/-- Raw SNMP counter values at a point in time
(`CounterSample` in internal/engine/rate.go). -/
structure CounterSample where
  InOctets : Nat
  OutOctets : Nat
  Timestamp : Int
deriving DecidableEq, Repr, Inhabited

/-- Calculated bit rates at a point in time
(`RateSample` in internal/engine/rate.go). -/
structure RateSample where
  Timestamp : Int
  InRate : ℚ
  OutRate : ℚ
deriving DecidableEq, Repr, Inhabited

/-- The two failure modes of `CalculateRate`: the ad-hoc
"zero or negative elapsed time" error and `ErrCounterWrap`. -/
inductive RateError where
  | invalidInterval
  | counterWrap
deriving DecidableEq, Repr

/-- `curr.Timestamp.Sub(prev.Timestamp).Seconds()`: the elapsed time in
seconds between the two samples (nanosecond timestamps). -/
def elapsedSeconds (prev curr : CounterSample) : ℚ :=
  ((curr.Timestamp - prev.Timestamp : Int) : ℚ) / 1000000000

/-- `CalculateRate` from internal/engine/rate.go: rejects a non-positive
elapsed time first, then a decreasing counter, otherwise returns the
bit rates `delta * 8 / elapsed`. -/
def CalculateRate (prev curr : CounterSample) : Except RateError RateSample :=
  let elapsed := elapsedSeconds prev curr
  if elapsed ≤ 0 then
    Except.error RateError.invalidInterval
  else if curr.InOctets < prev.InOctets ∨ curr.OutOctets < prev.OutOctets then
    Except.error RateError.counterWrap
  else
    Except.ok
      { Timestamp := curr.Timestamp
        InRate := ((curr.InOctets - prev.InOctets : Nat) : ℚ) * 8 / elapsed
        OutRate := ((curr.OutOctets - prev.OutOctets : Nat) : ℚ) * 8 / elapsed }

/-- `CalculateUtilization` from internal/engine/rate.go: zero when the
speed is unknown, otherwise the higher direction over the speed in bps,
as a percentage. -/
def CalculateUtilization (inRate outRate : ℚ) (speedMbps : Nat) : ℚ :=
  if speedMbps = 0 then 0
  else
    let maxRate := if outRate > inRate then outRate else inRate
    maxRate / ((speedMbps : ℚ) * 1000000) * 100

lemma elapsedSeconds_pos {prev curr : CounterSample}
    (h : prev.Timestamp < curr.Timestamp) : 0 < elapsedSeconds prev curr := by
  unfold elapsedSeconds
  have hnum : (0 : ℚ) < ((curr.Timestamp - prev.Timestamp : Int) : ℚ) := by
    exact_mod_cast Int.sub_pos.mpr h
  positivity

lemma elapsedSeconds_nonpos {prev curr : CounterSample}
    (h : curr.Timestamp ≤ prev.Timestamp) : elapsedSeconds prev curr ≤ 0 := by
  unfold elapsedSeconds
  have hnum : ((curr.Timestamp - prev.Timestamp : Int) : ℚ) ≤ 0 := by
    exact_mod_cast sub_nonpos.mpr h
  exact div_nonpos_of_nonpos_of_nonneg hnum (by norm_num)

/-- C1: for counter samples with a strictly later current timestamp and
non-decreasing counters, `CalculateRate` succeeds and returns the sample
stamped with `curr.Timestamp` whose rates are the octet deltas times 8
divided by the elapsed time in seconds. -/
theorem calculateRate_ok (prev curr : CounterSample)
    (ht : prev.Timestamp < curr.Timestamp)
    (hin : prev.InOctets ≤ curr.InOctets)
    (hout : prev.OutOctets ≤ curr.OutOctets) :
    CalculateRate prev curr = Except.ok
      { Timestamp := curr.Timestamp
        InRate := ((curr.InOctets - prev.InOctets : Nat) : ℚ) * 8 /
          elapsedSeconds prev curr
        OutRate := ((curr.OutOctets - prev.OutOctets : Nat) : ℚ) * 8 /
          elapsedSeconds prev curr } := by
  have hpos := elapsedSeconds_pos ht
  unfold CalculateRate
  rw [if_neg (by exact not_le.mpr hpos), if_neg]
  push_neg
  exact ⟨hin, hout⟩

/-- Witness for C1: the literal scenario of spec §8(a) — 1000 octets in
and 1000 octets out over 10 seconds yield 800 bps each way. -/
theorem calculateRate_ok_witness :
    CalculateRate ⟨1000, 500, 0⟩ ⟨2000, 1500, 10000000000⟩ = Except.ok
      { Timestamp := 10000000000
        InRate := ((2000 - 1000 : Nat) : ℚ) * 8 /
          elapsedSeconds ⟨1000, 500, 0⟩ ⟨2000, 1500, 10000000000⟩
        OutRate := ((1500 - 500 : Nat) : ℚ) * 8 /
          elapsedSeconds ⟨1000, 500, 0⟩ ⟨2000, 1500, 10000000000⟩ } :=
  calculateRate_ok ⟨1000, 500, 0⟩ ⟨2000, 1500, 10000000000⟩
    (by norm_num) (by norm_num) (by norm_num)

/-- C7 counterexample: a pair with both a wrapped counter and a
non-positive interval is reported as the invalid-interval error, not as
`ErrCounterWrap` — `CalculateRate` checks the interval first, so the
claim "fails with CounterWrap whenever curr.InOctets < prev.InOctets"
is false. -/
theorem calculateRate_wrap_claim_counterexample :
    (⟨0, 0, 0⟩ : CounterSample).InOctets < (⟨1, 0, 0⟩ : CounterSample).InOctets ∧
    CalculateRate ⟨1, 0, 0⟩ ⟨0, 0, 0⟩ = Except.error RateError.invalidInterval ∧
    CalculateRate ⟨1, 0, 0⟩ ⟨0, 0, 0⟩ ≠ Except.error RateError.counterWrap := by
  refine ⟨by norm_num, ?_, ?_⟩ <;>
    simp [CalculateRate, elapsedSeconds]

/-- C7 amended: the interval check takes precedence. `CalculateRate`
fails with InvalidInterval whenever `curr.Timestamp ≤ prev.Timestamp`
(even if a counter also wrapped); fails with CounterWrap whenever the
interval is positive and a counter decreased; succeeds otherwise. -/
theorem calculateRate_error_cases (prev curr : CounterSample) :
    (curr.Timestamp ≤ prev.Timestamp →
      CalculateRate prev curr = Except.error RateError.invalidInterval) ∧
    (prev.Timestamp < curr.Timestamp →
      (curr.InOctets < prev.InOctets ∨ curr.OutOctets < prev.OutOctets) →
      CalculateRate prev curr = Except.error RateError.counterWrap) ∧
    (prev.Timestamp < curr.Timestamp →
      prev.InOctets ≤ curr.InOctets → prev.OutOctets ≤ curr.OutOctets →
      ∃ r, CalculateRate prev curr = Except.ok r) := by
  refine ⟨?_, ?_, ?_⟩
  · intro hts
    unfold CalculateRate
    rw [if_pos (elapsedSeconds_nonpos hts)]
  · intro hts hwrap
    unfold CalculateRate
    rw [if_neg (not_le.mpr (elapsedSeconds_pos hts)), if_pos hwrap]
  · intro hts hin hout
    exact ⟨_, calculateRate_ok prev curr hts hin hout⟩

/-- Witness for C7 (amended): a wrapped in-counter over a positive
interval is reported as `ErrCounterWrap`. -/
theorem calculateRate_error_cases_witness :
    CalculateRate ⟨100, 50, 0⟩ ⟨50, 50, 10000000000⟩ =
      Except.error RateError.counterWrap :=
  (calculateRate_error_cases ⟨100, 50, 0⟩ ⟨50, 50, 10000000000⟩).2.1
    (by norm_num) (Or.inl (by norm_num))

/-- C8: `CalculateUtilization` returns `max(inRate, outRate)` over the
speed in bits per second as a percentage, and 0 for an unknown speed. -/
theorem calculateUtilization_spec (inRate outRate : ℚ) (speedMbps : Nat) :
    CalculateUtilization inRate outRate speedMbps =
      if speedMbps = 0 then 0
      else max inRate outRate / ((speedMbps : ℚ) * 1000000) * 100 := by
  unfold CalculateUtilization
  rcases eq_or_ne speedMbps 0 with h | h
  · simp [h]
  · rw [if_neg h, if_neg h]
    rcases le_or_lt outRate inRate with hle | hlt
    · rw [if_neg (not_lt.mpr hle), max_eq_left hle]
    · rw [if_pos hlt, max_eq_right hlt.le]

/-- `RingBuffer` from internal/engine/ringbuffer.go: a fixed-capacity
circular buffer. The Go backing slice `make([]T, capacity)` is modelled
as a total function on indices; only indices below `cap` are ever used. -/
structure RingBuffer (T : Type) where
  items : Nat → T
  head : Nat
  count : Nat
  cap : Nat

/-- `NewRingBuffer`: zero-valued storage, `head = count = 0`. -/
def NewRingBuffer (T : Type) [Inhabited T] (capacity : Nat) : RingBuffer T :=
  { items := fun _ => default, head := 0, count := 0, cap := capacity }

/-- `Add`: write at `head`, advance `head` modulo `cap`, grow `count`
until it reaches `cap`. -/
def RingBuffer.Add {T : Type} (r : RingBuffer T) (item : T) : RingBuffer T :=
  { r with
    items := fun j => if j = r.head then item else r.items j
    head := (r.head + 1) % r.cap
    count := if r.count < r.cap then r.count + 1 else r.count }

/-- `Len`: the current number of items. -/
def RingBuffer.Len {T : Type} (r : RingBuffer T) : Nat := r.count

/-- `All`: copy out `count` items starting from the oldest slot
(`head` when full, slot 0 otherwise). -/
def RingBuffer.All {T : Type} (r : RingBuffer T) : List T :=
  let start := if r.count = r.cap then r.head else 0
  (List.range r.count).map fun i => r.items ((start + i) % r.cap)

/-- A sequence of `Add` calls, oldest first. -/
def addList {T : Type} (r : RingBuffer T) (xs : List T) : RingBuffer T :=
  xs.foldl RingBuffer.Add r

/-- Specification-level add: append, dropping the oldest element once
the list holds `N` items. -/
def specAdd {T : Type} (N : Nat) (l : List T) (x : T) : List T :=
  if l.length < N then l ++ [x] else l.tail ++ [x]

/-- The last `N` elements of a list (all of it when it is shorter). -/
def lastN {T : Type} (N : Nat) (l : List T) : List T :=
  l.drop (l.length - N)

/-- Coupling invariant between a `RingBuffer` and the list of the last
`N` items added, oldest first. -/
def RingInv {T : Type} (N : Nat) (r : RingBuffer T) (l : List T) : Prop :=
  r.cap = N ∧ r.head < N ∧ r.count = l.length ∧ l.length ≤ N ∧
  (l.length < N → r.head = l.length) ∧
  ∀ i (h : i < l.length),
    r.items (((if l.length = N then r.head else 0) + i) % N) = l[i]

lemma ringInv_new (T : Type) [Inhabited T] {N : Nat} (hN : 1 ≤ N) :
    RingInv N (NewRingBuffer T N) [] := by
  refine ⟨rfl, hN, rfl, Nat.zero_le _, fun _ => rfl, fun i h => ?_⟩
  exact absurd h (Nat.not_lt_zero i)

lemma mod_add_ne_self {h₀ m N : Nat} (hh : h₀ < N) (hm0 : 0 < m)
    (hmN : m < N) : (h₀ + m) % N ≠ h₀ := by
  rcases Nat.lt_or_ge (h₀ + m) N with hlt | hge
  · rw [Nat.mod_eq_of_lt hlt]
    omega
  · have h2 : h₀ + m - N < N := by omega
    rw [Nat.mod_eq_sub_mod hge, Nat.mod_eq_of_lt h2]
    omega

lemma ringInv_add {T : Type} {N : Nat} (hN : 1 ≤ N) {r : RingBuffer T}
    {l : List T} (h : RingInv N r l) (x : T) :
    RingInv N (r.Add x) (specAdd N l x) := by
  obtain ⟨hcap, hhlt, hcount, hlen, hhead, hitems⟩ := h
  rcases Nat.lt_or_ge l.length N with hfull | hge
  · -- buffer not yet full: head sits at l.length, the new item lands there
    have hh := hhead hfull
    have hlt : r.count < r.cap := by rw [hcap, hcount]; exact hfull
    have hlen2 : (l ++ [x]).length = l.length + 1 := by simp
    refine ⟨hcap, ?_, ?_, ?_, ?_, ?_⟩
    · show (r.head + 1) % r.cap < N
      rw [hcap]
      exact Nat.mod_lt _ (by omega)
    · show (if r.count < r.cap then r.count + 1 else r.count) = (specAdd N l x).length
      rw [if_pos hlt, specAdd, if_pos hfull, hlen2, hcount]
    · rw [specAdd, if_pos hfull, hlen2]; omega
    · intro hlt2
      rw [specAdd, if_pos hfull, hlen2] at hlt2
      show (r.head + 1) % r.cap = (specAdd N l x).length
      rw [specAdd, if_pos hfull, hlen2, hcap, hh, Nat.mod_eq_of_lt hlt2]
    · intro i hi
      have hspec : specAdd N l x = l ++ [x] := by rw [specAdd, if_pos hfull]
      simp only [hspec] at hi ⊢
      rw [hlen2] at hi
      -- the start slot is 0 whether or not the buffer just became full
      have hstart : (if (l ++ [x]).length = N then (r.head + 1) % r.cap else 0)
          = 0 := by
        rcases eq_or_ne (l.length + 1) N with hNe | hNe
        · rw [if_pos (by rw [hlen2]; exact hNe), hcap, hh, ← hNe]
          exact Nat.mod_self _
        · rw [if_neg (by rw [hlen2]; exact hNe)]
      show (r.Add x).items
          (((if (l ++ [x]).length = N then (r.head + 1) % r.cap else 0) + i) % N)
          = (l ++ [x])[i]
      rw [hstart, Nat.zero_add, Nat.mod_eq_of_lt (by omega)]
      rcases Nat.lt_or_ge i l.length with hil | hil
      · have hne : i ≠ r.head := by rw [hh]; omega
        show (if i = r.head then x else r.items i) = (l ++ [x])[i]
        rw [if_neg hne, List.getElem_append_left hil]
        have := hitems i hil
        rwa [if_neg (by omega), Nat.zero_add, Nat.mod_eq_of_lt (by omega)] at this
      · have hieq : i = l.length := by omega
        subst hieq
        show (if l.length = r.head then x else r.items l.length)
            = (l ++ [x])[l.length]
        rw [if_pos hh.symm]
        simp
  · -- buffer full: the new item overwrites the oldest slot at head
    have hleq : l.length = N := by omega
    have hnlt : ¬ r.count < r.cap := by rw [hcap, hcount, hleq]; omega
    have htail : l.tail.length = N - 1 := by
      rw [List.length_tail, hleq]
    have hlen2 : (l.tail ++ [x]).length = N := by
      rw [List.length_append, htail]; simp; omega
    refine ⟨hcap, ?_, ?_, ?_, ?_, ?_⟩
    · show (r.head + 1) % r.cap < N
      rw [hcap]
      exact Nat.mod_lt _ (by omega)
    · show (if r.count < r.cap then r.count + 1 else r.count) = (specAdd N l x).length
      rw [if_neg hnlt, specAdd, if_neg (by omega), hlen2, hcount, hleq]
    · rw [specAdd, if_neg (by omega), hlen2]
    · intro hlt2
      rw [specAdd, if_neg (by omega), hlen2] at hlt2
      omega
    · intro i hi
      have hspec : specAdd N l x = l.tail ++ [x] := by
        rw [specAdd, if_neg (by omega)]
      simp only [hspec] at hi ⊢
      rw [hlen2] at hi
      show (r.Add x).items
          (((if (l.tail ++ [x]).length = N then (r.head + 1) % r.cap else 0) + i) % N)
          = (l.tail ++ [x])[i]
      rw [if_pos hlen2]
      simp only [hcap, Nat.mod_add_mod]
      rcases Nat.lt_or_ge i (N - 1) with hil | hil
      · have hne : (r.head + 1 + i) % N ≠ r.head :=
          Nat.add_assoc r.head 1 i ▸ mod_add_ne_self hhlt (by omega) (by omega)
        show (if (r.head + 1 + i) % N = r.head then x else r.items ((r.head + 1 + i) % N))
            = (l.tail ++ [x])[i]
        rw [if_neg hne]
        have hi1 : i + 1 < l.length := by omega
        have hold := hitems (i + 1) hi1
        rw [if_pos hleq] at hold
        have harith : r.head + 1 + i = r.head + (i + 1) := by omega
        rw [harith, hold, List.getElem_append_left (by omega), List.getElem_tail]
      · have hieq : i = N - 1 := by omega
        subst hieq
        have harith : r.head + 1 + (N - 1) = r.head + N := by omega
        rw [harith, Nat.add_mod_right, Nat.mod_eq_of_lt hhlt]
        show (if r.head = r.head then x else r.items r.head) = (l.tail ++ [x])[N - 1]
        rw [if_pos rfl]
        have hx : (l.tail ++ [x])[N - 1] = x := by
          rw [List.getElem_append_right (by omega)]
          simp [htail]
        exact hx.symm

lemma ringInv_addList {T : Type} {N : Nat} (hN : 1 ≤ N) {r : RingBuffer T}
    {l : List T} (h : RingInv N r l) (xs : List T) :
    RingInv N (addList r xs) (xs.foldl (specAdd N) l) := by
  induction xs generalizing r l with
  | nil => exact h
  | cons x xs ih =>
    show RingInv N (addList (r.Add x) xs) (xs.foldl (specAdd N) (specAdd N l x))
    exact ih (ringInv_add hN h x)

lemma ringInv_all {T : Type} {N : Nat} (hN : 1 ≤ N) {r : RingBuffer T}
    {l : List T} (h : RingInv N r l) : r.All = l := by
  obtain ⟨hcap, hhlt, hcount, hlen, hhead, hitems⟩ := h
  apply List.ext_getElem
  · simp [RingBuffer.All, hcount]
  · intro i h1 h2
    simp only [RingBuffer.All, List.getElem_map, List.getElem_range]
    rw [hcount, hcap]
    exact hitems i h2

lemma specAdd_eq_lastN {T : Type} {N : Nat} (hN : 1 ≤ N) (l : List T)
    (hl : l.length ≤ N) (x : T) : specAdd N l x = lastN N (l ++ [x]) := by
  rw [specAdd, lastN]
  rcases Nat.lt_or_ge l.length N with hlt | hge
  · rw [if_pos hlt]
    have : (l ++ [x]).length - N = 0 := by simp; omega
    rw [this, List.drop_zero]
  · have hleq : l.length = N := by omega
    rw [if_neg (by omega)]
    have : (l ++ [x]).length - N = 1 := by simp; omega
    rw [this, List.drop_append_of_le_length (by omega), List.drop_one]

lemma lastN_append_lastN {T : Type} (N : Nat) (a b : List T) :
    lastN N (lastN N a ++ b) = lastN N (a ++ b) := by
  rw [lastN, lastN, lastN]
  have hk : a.length - N ≤ a.length := Nat.sub_le _ _
  rw [← List.drop_append_of_le_length hk]
  rw [List.drop_drop]
  congr 1
  simp only [List.length_append, List.length_drop]
  omega

lemma foldl_specAdd {T : Type} {N : Nat} (hN : 1 ≤ N) (l : List T)
    (hl : l.length ≤ N) (xs : List T) :
    xs.foldl (specAdd N) l = lastN N (l ++ xs) := by
  induction xs generalizing l with
  | nil =>
    show l = lastN N (l ++ [])
    rw [List.append_nil, lastN]
    have : l.length - N = 0 := by omega
    rw [this, List.drop_zero]
  | cons x xs ih =>
    show xs.foldl (specAdd N) (specAdd N l x) = lastN N (l ++ x :: xs)
    have hlx : (specAdd N l x).length ≤ N := by
      rw [specAdd]
      rcases Nat.lt_or_ge l.length N with hlt | hge
      · rw [if_pos hlt]; simp; omega
      · rw [if_neg (by omega)]
        simp [List.length_tail]
        omega
    rw [ih (specAdd N l x) hlx, specAdd_eq_lastN hN l hl x,
      lastN_append_lastN, List.append_assoc]
    rfl

/-- C3: for every ring buffer of capacity `N ≥ 1` and every sequence of
`k` adds, `Len` returns `min k N` and `All` returns exactly the last
`min k N` added items, oldest first. -/
theorem ringBuffer_spec (T : Type) [Inhabited T] (N : Nat) (hN : 1 ≤ N)
    (xs : List T) :
    (addList (NewRingBuffer T N) xs).Len = min xs.length N ∧
    (addList (NewRingBuffer T N) xs).All =
      xs.drop (xs.length - min xs.length N) := by
  have hinv := ringInv_addList hN (ringInv_new T hN) xs
  have hfold := foldl_specAdd hN [] (by simp) xs
  rw [List.nil_append] at hfold
  rw [hfold] at hinv
  obtain ⟨hcap, hhlt, hcount, hlen, hhead, hitems⟩ := hinv
  constructor
  · show (addList (NewRingBuffer T N) xs).count = min xs.length N
    rw [hcount, lastN, List.length_drop]
    omega
  · rw [ringInv_all hN (hfold ▸ ringInv_addList hN (ringInv_new T hN) xs), lastN]
    congr 1
    omega

/-- Witness for C3: capacity 2, three adds — length 2 and the last two
items in order. -/
theorem ringBuffer_spec_witness :
    (addList (NewRingBuffer Nat 2) [1, 2, 3]).Len =
      min (List.length [1, 2, 3]) 2 ∧
    (addList (NewRingBuffer Nat 2) [1, 2, 3]).All =
      List.drop (List.length [1, 2, 3] - min (List.length [1, 2, 3]) 2)
        [1, 2, 3] :=
  ringBuffer_spec Nat 2 (by norm_num) [1, 2, 3]

instance : Inhabited (RingBuffer RateSample) :=
  ⟨NewRingBuffer RateSample 0⟩

/-- `InterfaceStats` from internal/engine (types): per-interface live
state owned by the Poller. `PollError` models the Go `error` field as
presence of an error. -/
structure InterfaceStats where
  IfIndex : Nat
  Name : String
  Description : String
  Speed : Nat
  Status : String
  InRate : ℚ
  OutRate : ℚ
  Utilization : ℚ
  History : RingBuffer RateSample
  PollError : Option Unit
  LastPoll : Int
deriving Inhabited

/-- The per-interface body of `Poller.pollTarget` (internal/engine,
after a successful counter GET): set the operational status; if a
previous baseline exists, compute the rate and, only on success, update
rates, utilization and the history ring; finally stamp `LastPoll` and
clear `PollError`. -/
def pollInterfaceStep (iface : InterfaceStats) (prev : Option CounterSample)
    (counters : CounterSample) (status : String) (now : Int) : InterfaceStats :=
  let i1 := { iface with Status := status }
  let i2 :=
    match prev with
    | none => i1
    | some p =>
      match CalculateRate p counters with
      | Except.error _ => i1
      | Except.ok rate =>
        { i1 with
          InRate := rate.InRate
          OutRate := rate.OutRate
          Utilization := CalculateUtilization rate.InRate rate.OutRate i1.Speed
          History := i1.History.Add rate }
  { i2 with LastPoll := now, PollError := none }

/-- `p.prevCounters[prevKey][iface.IfIndex] = counters`: the baseline
for one host is replaced unconditionally after every successful GET. -/
def updateBaseline (prev : Nat → Option CounterSample) (ifIndex : Nat)
    (c : CounterSample) : Nat → Option CounterSample :=
  fun j => if j = ifIndex then some c else prev j

/-- C2: when a stored baseline exists and `CalculateRate` fails (wrap or
bad interval), the poll step leaves the history ring, rates and
utilization untouched, still advances `LastPoll`, and the baseline map
still receives the freshly read counters. -/
theorem pollStep_rateError_frame (iface : InterfaceStats)
    (p counters : CounterSample) (status : String) (now : Int)
    (prevMap : Nat → Option CounterSample) (ifIndex : Nat) (e : RateError)
    (herr : CalculateRate p counters = Except.error e) :
    (pollInterfaceStep iface (some p) counters status now).History =
      iface.History ∧
    (pollInterfaceStep iface (some p) counters status now).InRate =
      iface.InRate ∧
    (pollInterfaceStep iface (some p) counters status now).OutRate =
      iface.OutRate ∧
    (pollInterfaceStep iface (some p) counters status now).Utilization =
      iface.Utilization ∧
    (pollInterfaceStep iface (some p) counters status now).LastPoll = now ∧
    updateBaseline prevMap ifIndex counters ifIndex = some counters := by
  simp [pollInterfaceStep, updateBaseline, herr]

/-- Witness for C2: a wrapped counter pair leaves the interface state
untouched apart from `LastPoll`, while the baseline is replaced. -/
theorem pollStep_rateError_frame_witness :
    (pollInterfaceStep default (some ⟨100, 50, 0⟩) ⟨50, 50, 10000000000⟩
      default 7).History = (default : InterfaceStats).History ∧
    (pollInterfaceStep default (some ⟨100, 50, 0⟩) ⟨50, 50, 10000000000⟩
      default 7).InRate = (default : InterfaceStats).InRate ∧
    (pollInterfaceStep default (some ⟨100, 50, 0⟩) ⟨50, 50, 10000000000⟩
      default 7).OutRate = (default : InterfaceStats).OutRate ∧
    (pollInterfaceStep default (some ⟨100, 50, 0⟩) ⟨50, 50, 10000000000⟩
      default 7).Utilization = (default : InterfaceStats).Utilization ∧
    (pollInterfaceStep default (some ⟨100, 50, 0⟩) ⟨50, 50, 10000000000⟩
      default 7).LastPoll = 7 ∧
    updateBaseline (fun _ => none) 1 ⟨50, 50, 10000000000⟩ 1 =
      some ⟨50, 50, 10000000000⟩ :=
  pollStep_rateError_frame default ⟨100, 50, 0⟩ ⟨50, 50, 10000000000⟩
    default 7 (fun _ => none) 1 RateError.counterWrap
    (by norm_num [CalculateRate, elapsedSeconds])

/-- `Identity` from internal/identity: an SNMP credential profile. -/
structure Identity where
  Name : String
  Version : String
  Community : String
  Username : String
  AuthProto : String
  AuthPass : String
  PrivProto : String
  PrivPass : String
deriving DecidableEq, Repr, Inhabited

/-- The `identity.Provider` capability as the Poller consumes it: `Get`
resolves a credential name, or fails (`none`). -/
def Provider : Type := String → Option Identity

instance : Inhabited Provider := ⟨fun _ => none⟩

/-- `Target` from internal/dashboard (types). -/
structure Target where
  Host : String
  Label : String
  Identity : String
  Port : Int
  Interfaces : List String
deriving DecidableEq, Repr, Inhabited

/-- `Group` from internal/dashboard (types). -/
structure Group where
  Name : String
  Targets : List Target
deriving DecidableEq, Repr, Inhabited

/-- `Dashboard` from internal/dashboard (types). The Go `Interval`
(`time.Duration`, int64 nanoseconds) is `IntervalNs`; the TOML-only
`IntervalStr` field is omitted. -/
structure Dashboard where
  Name : String
  DefaultIdentity : String
  IntervalNs : Int
  MaxHistory : Int
  Groups : List Group
deriving DecidableEq, Repr, Inhabited

/-- The manager's per-session value (the fields of `Poller` relevant to
registration; `NewPoller` only records the dashboard and provider and
allocates empty maps). -/
structure PollerModel where
  dash : Dashboard
  provider : Provider
deriving Inhabited

inductive ManagerError where
  | alreadyRunning
  | notFound
deriving DecidableEq, Repr

/-- `NewPoller` from internal/engine: it records the dashboard and the
credential provider (without invoking it) and never fails. -/
def NewPoller (dash : Dashboard) (provider : Provider) :
    Except ManagerError PollerModel :=
  Except.ok { dash := dash, provider := provider }

/-- The manager registry (`Manager.engines`), as an association list. -/
structure ManagerState where
  engines : List (String × PollerModel)
deriving Inhabited

/-- `Manager.Start` from internal/engine/manager.go: reject a duplicate
name, otherwise create the Poller, register it and launch it. Neither
the dashboard's interval or history depth nor the provider's
credentials are inspected. -/
def managerStart (m : ManagerState) (dash : Dashboard)
    (provider : Provider) : Except ManagerError ManagerState :=
  if dash.Name ∈ m.engines.map Prod.fst then
    Except.error ManagerError.alreadyRunning
  else
    match NewPoller dash provider with
    | Except.error e => Except.error e
    | Except.ok p => Except.ok ⟨(dash.Name, p) :: m.engines⟩

/-- A dashboard with a 0.5 s poll interval, history depth 0 and one
target referencing a credential by name. -/
def subSecondDashboard : Dashboard :=
  { Name := default, DefaultIdentity := default, IntervalNs := 500000000,
    MaxHistory := 0,
    Groups := [{ Name := default,
                 Targets := [{ Host := default, Label := default,
                               Identity := default, Port := 161,
                               Interfaces := [] }] }] }

/-- The SNMP version string 1. -/
def versionV1 : String := String.mk [Char.ofNat 49]

/-- The SNMP version string 2c. -/
def versionV2c : String := String.mk [Char.ofNat 50, Char.ofNat 99]

/-- The SNMP version string 3. -/
def versionV3 : String := String.mk [Char.ofNat 51]

/-- An SNMP version string (the digit 9) outside the supported set of
`NewSNMPClient`. -/
def versionUnknown : String := String.mk [Char.ofNat 57]

inductive SnmpOpenError where
  | unsupportedVersion
deriving DecidableEq, Repr

/-- The fields of the `gosnmp.GoSNMP` client that `NewSNMPClient`
configures (the library type itself is external). -/
structure SNMPClientModel where
  Target : String
  Port : Int
  Version : String
  Community : String
  Username : String
deriving DecidableEq, Repr, Inhabited

/-- `NewSNMPClient` from internal/engine/snmp.go, reduced to the version
dispatch that decides success: versions 1 and 2c configure the
community, version 3 the USM user; any other version string yields the
unsupported-version error. -/
def NewSNMPClient (host : String) (port : Int) (id : Identity) :
    Except SnmpOpenError SNMPClientModel :=
  let port2 := if port = 0 then 161 else port
  if id.Version = versionV1 then
    Except.ok { Target := host, Port := port2, Version := id.Version,
                Community := id.Community, Username := default }
  else if id.Version = versionV2c then
    Except.ok { Target := host, Port := port2, Version := id.Version,
                Community := id.Community, Username := default }
  else if id.Version = versionV3 then
    Except.ok { Target := host, Port := port2, Version := id.Version,
                Community := default, Username := id.Username }
  else
    Except.error SnmpOpenError.unsupportedVersion

/-- A credential whose version is unknown. -/
def badVersionIdentity : Identity :=
  { (default : Identity) with Version := versionUnknown }

/-- A provider that resolves every name to the unknown-version
credential. -/
def badVersionProvider : Provider := fun _ => some badVersionIdentity

/-- C6 counterexample: `Manager.Start` accepts and registers a dashboard
whose interval is below one second and whose history depth is ≤ 0, with
a provider that can only supply a credential of an unknown SNMP
version; no Config error is surfaced at session start. -/
theorem managerStart_no_validation_counterexample :
    subSecondDashboard.IntervalNs < 1000000000 ∧
    subSecondDashboard.MaxHistory ≤ 0 ∧
    badVersionProvider subSecondDashboard.DefaultIdentity =
      some badVersionIdentity ∧
    NewSNMPClient default 161 badVersionIdentity =
      Except.error SnmpOpenError.unsupportedVersion ∧
    managerStart ⟨[]⟩ subSecondDashboard badVersionProvider =
      Except.ok ⟨[(subSecondDashboard.Name,
        { dash := subSecondDashboard, provider := badVersionProvider })]⟩ := by
  refine ⟨by decide, by decide, rfl, rfl, rfl⟩

/-- C6 amended: `Manager.Start` performs no configuration validation —
it consults neither the poll interval, nor the history depth, nor the
credential provider. Every dashboard whose name is not already
registered is registered and launched successfully (`NewPoller` never
fails), with any provider whatsoever; so no Config error is surfaced at
session start for an interval below 1 s, a history depth ≤ 0, or
credentials of an unknown SNMP version. Only a duplicate session name
is rejected. -/
theorem managerStart_registers_without_validation (m : ManagerState)
    (dash : Dashboard) (provider : Provider)
    (h : dash.Name ∉ m.engines.map Prod.fst) :
    managerStart m dash provider =
      Except.ok ⟨(dash.Name, { dash := dash, provider := provider })
        :: m.engines⟩ := by
  unfold managerStart NewPoller
  rw [if_neg h]

/-- Witness for C6 (amended): the sub-second, zero-history dashboard is
registered successfully on an empty manager, with the unknown-version
provider. -/
theorem managerStart_registers_without_validation_witness :
    managerStart ⟨[]⟩ subSecondDashboard badVersionProvider =
      Except.ok ⟨[(subSecondDashboard.Name,
        { dash := subSecondDashboard, provider := badVersionProvider })]⟩ :=
  managerStart_registers_without_validation ⟨[]⟩ subSecondDashboard
    badVersionProvider (by decide)

/-- `Summary` from internal/identity: the secret-free projection. -/
structure Summary where
  Name : String
  Version : String
  Username : String
  AuthProto : String
  PrivProto : String
deriving DecidableEq, Repr, Inhabited

/-- `Identity.Summarize`. -/
def Identity.Summarize (id : Identity) : Summary :=
  { Name := id.Name, Version := id.Version, Username := id.Username,
    AuthProto := id.AuthProto, PrivProto := id.PrivProto }

/-- The Go map `map[string]Identity`, modelled as an association list
with at most one binding per key (maintained by `idInsert`). -/
def idLookup : List (String × Identity) → String → Option Identity
  | [], _ => none
  | (k, v) :: rest, name => if k = name then some v else idLookup rest name

/-- `m[k] = v` on a Go map: replace the existing binding or append. -/
def idInsert : List (String × Identity) → String → Identity →
    List (String × Identity)
  | [], k, v => [(k, v)]
  | (k2, v2) :: rest, k, v =>
    if k2 = k then (k, v) :: rest else (k2, v2) :: idInsert rest k v

/-- `delete(m, k)` on a Go map. -/
def idErase : List (String × Identity) → String → List (String × Identity)
  | [], _ => []
  | (k2, v2) :: rest, k =>
    if k2 = k then idErase rest k else (k2, v2) :: idErase rest k

lemma idLookup_idInsert (ids : List (String × Identity)) (k : String)
    (v : Identity) (q : String) :
    idLookup (idInsert ids k v) q = if k = q then some v else idLookup ids q := by
  induction ids with
  | nil => simp [idInsert, idLookup]
  | cons p rest ih =>
    obtain ⟨k2, v2⟩ := p
    by_cases h2 : k2 = k
    · subst h2
      rcases eq_or_ne k2 q with hq | hq
      · subst hq
        simp [idInsert, idLookup]
      · simp [idInsert, idLookup, hq]
    · rcases eq_or_ne k2 q with hq | hq
      · subst hq
        have hkq : k ≠ k2 := fun hc => h2 hc.symm
        simp [idInsert, idLookup, h2, hkq]
      · simp [idInsert, idLookup, h2, hq, ih]

lemma idLookup_idErase_self (ids : List (String × Identity)) (k : String) :
    idLookup (idErase ids k) k = none := by
  induction ids with
  | nil => simp [idErase, idLookup]
  | cons p rest ih =>
    obtain ⟨k2, v2⟩ := p
    by_cases h2 : k2 = k
    · simp [idErase, h2, ih]
    · simp [idErase, idLookup, h2, ih]

/-- The filesystem side effects the store performs while saving. -/
inductive FsOp where
  | writeFileOp (path : String) (mode : Nat)
  | fsyncOp (path : String)
  | renameOp (src dest : String)
deriving DecidableEq, Repr

def FsOp.isRename : FsOp → Bool
  | renameOp _ _ => true
  | _ => false

def FsOp.isFsync : FsOp → Bool
  | fsyncOp _ => true
  | _ => false

/-- The filesystem trace of `FileStore.save` (internal/identity): a
single direct `os.WriteFile(s.path, data, 0600)` — mode 0600 is decimal
384. No temporary file, no fsync, no rename appears in the source. -/
def saveFsOps (path : String) : List FsOp :=
  [FsOp.writeFileOp path 384]

inductive StoreError where
  | notFound
  | duplicate
deriving DecidableEq, Repr

/-- `FileStore.Add`: reject an existing name, otherwise bind and save.
Returns the new map together with the filesystem trace. -/
def storeAdd (ids : List (String × Identity)) (id : Identity)
    (path : String) :
    Except StoreError (List (String × Identity)) × List FsOp :=
  match idLookup ids id.Name with
  | some _ => (Except.error StoreError.duplicate, [])
  | none => (Except.ok (idInsert ids id.Name id), saveFsOps path)

/-- `FileStore.Update`: require `name` to exist, delete it if the
identity was renamed, then bind `id.Name` (overwriting any existing
binding) and save. -/
def storeUpdate (ids : List (String × Identity)) (name : String)
    (id : Identity) (path : String) :
    Except StoreError (List (String × Identity)) × List FsOp :=
  match idLookup ids name with
  | none => (Except.error StoreError.notFound, [])
  | some _ =>
    let ids1 := if name = id.Name then ids else idErase ids name
    (Except.ok (idInsert ids1 id.Name id), saveFsOps path)

/-- `FileStore.Remove`: require `name` to exist, delete it and save. -/
def storeRemove (ids : List (String × Identity)) (name : String)
    (path : String) :
    Except StoreError (List (String × Identity)) × List FsOp :=
  match idLookup ids name with
  | none => (Except.error StoreError.notFound, [])
  | some _ => (Except.ok (idErase ids name), saveFsOps path)

/-- C5: the write path of every mutating store operation is the single
direct `WriteFile` of `save` — mode 0600, no temp file, no fsync and no
rename, contradicting the claimed temp-file/fsync/rename sequence.
Shown here at the concrete failing input: adding the zero-valued
identity to an empty store. -/
theorem save_single_writeFile_no_rename :
    (storeAdd [] default default).2 = saveFsOps default ∧
    saveFsOps default = [FsOp.writeFileOp default 384] ∧
    ((saveFsOps default).all fun op => !op.isRename && !op.isFsync) = true := by
  refine ⟨rfl, rfl, rfl⟩

/-- C10: `Update(name, id)` with `id.Name ≠ name` while a distinct
credential is already stored under `id.Name` succeeds (no Duplicate
error), silently overwrites that credential, and leaves no binding for
`name`. -/
theorem storeUpdate_rename_overwrites (ids : List (String × Identity))
    (name : String) (id other cred : Identity) (path : String)
    (hne : name ≠ id.Name)
    (hname : idLookup ids name = some cred)
    (hother : idLookup ids id.Name = some other) :
    (storeUpdate ids name id path).1 =
      Except.ok (idInsert (idErase ids name) id.Name id) ∧
    idLookup (idInsert (idErase ids name) id.Name id) id.Name = some id ∧
    idLookup (idInsert (idErase ids name) id.Name id) name = none := by
  refine ⟨?_, ?_, ?_⟩
  · unfold storeUpdate
    rw [hname]
    simp [if_neg hne]
  · rw [idLookup_idInsert]
    simp
  · rw [idLookup_idInsert, if_neg (fun hc => hne hc.symm)]
    exact idLookup_idErase_self ids name

/-- Two distinct credential names for the C10 witness. -/
def nameA : String := String.mk [Char.ofNat 97]

def nameB : String := String.mk [Char.ofNat 98]

def identA : Identity := { (default : Identity) with Name := nameA }

def identB : Identity := { (default : Identity) with Name := nameB }

def identB2 : Identity := { (default : Identity) with Name := nameB, Username := nameA }

/-- Witness for C10: updating `nameA` to an identity renamed to `nameB`
overwrites the stored `nameB` credential and drops `nameA`. -/
theorem storeUpdate_rename_overwrites_witness :
    (storeUpdate [(nameA, identA), (nameB, identB)] nameA identB2 default).1 =
      Except.ok
        (idInsert (idErase [(nameA, identA), (nameB, identB)] nameA)
          identB2.Name identB2) ∧
    idLookup
      (idInsert (idErase [(nameA, identA), (nameB, identB)] nameA)
        identB2.Name identB2) identB2.Name = some identB2 ∧
    idLookup
      (idInsert (idErase [(nameA, identA), (nameB, identB)] nameA)
        identB2.Name identB2) nameA = none :=
  storeUpdate_rename_overwrites [(nameA, identA), (nameB, identB)] nameA
    identB2 identB identA default (by decide) (by decide) (by decide)

/-- The external primitives the vault is built on (Argon2id via
golang.org/x/crypto, AES-256-GCM and JSON via the Go standard library —
none of them code of this repository). They are abstracted as
functions over an abstract byte-blob type `B`; the round-trip theorems
take their standard correctness properties as hypotheses. `encrypt`
takes the fresh random nonce as an explicit argument. -/
structure VaultModel (B : Type) where
  deriveKey : List Nat → List Nat → List Nat
  encrypt : List Nat → Nat → B → B
  decrypt : List Nat → B → Option B
  marshalIds : List (String × Identity) → B
  unmarshalIds : B → Option (List (String × Identity))
  marshalEnv : List Nat → B → B
  unmarshalEnv : B → Option (List Nat × B)

/-- The in-memory `FileStore` fields that persist across a save/open
round trip (path and lock omitted). -/
structure FileStoreState where
  key : List Nat
  salt : List Nat
  identities : List (String × Identity)
deriving DecidableEq

inductive OpenError where
  | corruptStore
  | wrongPassword
  | corruptData
deriving DecidableEq, Repr

/-- `FileStore.save` (internal/identity): marshal the identity map,
encrypt it under the store key with a fresh nonce, and marshal the
`storeFile` envelope carrying the clear salt; the result is the byte
content written to the store path. -/
def saveEnvelope {B : Type} (vm : VaultModel B) (s : FileStoreState)
    (nonce : Nat) : B :=
  vm.marshalEnv s.salt (vm.encrypt s.key nonce (vm.marshalIds s.identities))

/-- `NewFileStore` on an existing file (internal/identity): parse the
envelope, re-derive the key from the password and the stored salt,
decrypt, and deserialize the identity map. -/
def openFileStore {B : Type} (vm : VaultModel B) (fileData : B)
    (password : List Nat) : Except OpenError FileStoreState :=
  match vm.unmarshalEnv fileData with
  | none => Except.error OpenError.corruptStore
  | some (salt, data) =>
    let key := vm.deriveKey password salt
    match vm.decrypt key data with
    | none => Except.error OpenError.wrongPassword
    | some plaintext =>
      match vm.unmarshalIds plaintext with
      | none => Except.error OpenError.corruptData
      | some ids => Except.ok { key := key, salt := salt, identities := ids }

/-- C4: the vault round-trips. Assuming the standard correctness of the
external primitives (AES-GCM decrypt inverts encrypt under the same key,
JSON unmarshal inverts marshal), opening the saved file with the same
password succeeds and returns exactly the saved identity map. -/
theorem vault_roundtrip (B : Type) (vm : VaultModel B)
    (S : List (String × Identity)) (password salt : List Nat) (nonce : Nat)
    (hdec : ∀ n pt, vm.decrypt (vm.deriveKey password salt)
      (vm.encrypt (vm.deriveKey password salt) n pt) = some pt)
    (hids : ∀ m, vm.unmarshalIds (vm.marshalIds m) = some m)
    (henv : ∀ sl d, vm.unmarshalEnv (vm.marshalEnv sl d) = some (sl, d)) :
    openFileStore vm
      (saveEnvelope vm
        { key := vm.deriveKey password salt, salt := salt, identities := S }
        nonce)
      password =
    Except.ok
      { key := vm.deriveKey password salt, salt := salt, identities := S } := by
  simp [openFileStore, saveEnvelope, henv, hdec, hids]

/-- A concrete blob type instantiating the abstract primitives for the
C4 witness: markers in place of real JSON and AES-GCM. -/
inductive DemoBlob where
  | ids (m : List (String × Identity))
  | enc (key : List Nat) (nonce : Nat) (payload : DemoBlob)
  | env (salt : List Nat) (data : DemoBlob)
deriving DecidableEq, Repr

def demoVault : VaultModel DemoBlob :=
  { deriveKey := fun pw salt => pw ++ salt
    encrypt := fun k n pt => DemoBlob.enc k n pt
    decrypt := fun k b =>
      match b with
      | DemoBlob.enc k2 _ pt => if k2 = k then some pt else none
      | _ => none
    marshalIds := fun m => DemoBlob.ids m
    unmarshalIds := fun b =>
      match b with
      | DemoBlob.ids m => some m
      | _ => none
    marshalEnv := fun s d => DemoBlob.env s d
    unmarshalEnv := fun b =>
      match b with
      | DemoBlob.env s d => some (s, d)
      | _ => none }

/-- Witness for C4: a one-credential store saved with password `[1, 2]`
and salt `[3]` reopens to exactly the same identity map. -/
theorem vault_roundtrip_witness :
    openFileStore demoVault
      (saveEnvelope demoVault
        { key := demoVault.deriveKey [1, 2] [3], salt := [3],
          identities := [(nameA, identA)] } 7)
      [1, 2] =
    Except.ok
      { key := demoVault.deriveKey [1, 2] [3], salt := [3],
        identities := [(nameA, identA)] } :=
  vault_roundtrip DemoBlob demoVault [(nameA, identA)] [1, 2] [3] 7
    (by intro n pt; simp [demoVault])
    (by intro m; simp [demoVault])
    (by intro sl d; simp [demoVault])

/-- A Go slice header: a reference into the heap of backing arrays.
Copying a struct that contains a slice copies the header, not the
array. -/
structure SliceRef where
  ref : Nat
deriving DecidableEq, Repr

/-- `TargetStats` as laid out in Go (internal/engine types): the
`Interfaces` field is a slice header into shared backing storage. -/
structure TargetStatsRef where
  Host : String
  Label : String
  Interfaces : SliceRef
  LastPoll : Int

/-- The heap of slice backing arrays for `[]InterfaceStats`. -/
structure Heap where
  arrays : Nat → List InterfaceStats

/-- Dereference a target's `Interfaces` slice in a given heap. -/
def readInterfaces (h : Heap) (ts : TargetStatsRef) : List InterfaceStats :=
  h.arrays ts.Interfaces.ref

/-- `gs.Targets = append(gs.Targets, *ts)` in `Poller.snapshotLocked`:
a value copy of the struct — the slice header (and the `History`
pointer inside each element) is copied unchanged, so the snapshot keeps
referring to the live backing array. -/
def snapshotTargetCopy (ts : TargetStatsRef) : TargetStatsRef :=
  { Host := ts.Host, Label := ts.Label, Interfaces := ts.Interfaces,
    LastPoll := ts.LastPoll }

/-- `ts.Interfaces[i].InRate = rate.InRate` in `Poller.pollTarget`: the
poll cycle mutates the backing array in place through the live slice. -/
def writeInterfaceRate (h : Heap) (ts : TargetStatsRef) (i : Nat) (rate : ℚ) :
    Heap :=
  { arrays := fun r =>
      if r = ts.Interfaces.ref then
        (h.arrays r).set i { (h.arrays r).getD i default with InRate := rate }
      else h.arrays r }

/-- A live target with one interface (rate 0) in backing array 0. -/
def liveTarget : TargetStatsRef :=
  { Host := default, Label := default, Interfaces := { ref := 0 },
    LastPoll := 0 }

def heapBefore : Heap := { arrays := fun _ => [default] }

/-- The snapshot taken before the next poll cycle. -/
def snapTarget : TargetStatsRef := snapshotTargetCopy liveTarget

/-- The heap after the next poll cycle writes `InRate = 100` through the
live target. -/
def heapAfter : Heap := writeInterfaceRate heapBefore liveTarget 0 100

/-- C9: the snapshot is not a point-in-time copy. It shares the
`Interfaces` backing array with the live Poller state, so a mutation
performed by a later poll cycle changes the contents of the previously
returned snapshot: the same snapshot reads rate 0 before the poll and
rate 100 after it. -/
theorem snapshot_mutated_by_later_poll :
    snapTarget.Interfaces = liveTarget.Interfaces ∧
    (readInterfaces heapBefore snapTarget).map InterfaceStats.InRate = [0] ∧
    (readInterfaces heapAfter snapTarget).map InterfaceStats.InRate = [100] := by
  refine ⟨rfl, rfl, rfl⟩

end Flo
